import Mathlib

/-!
# Verification of the vibecut daemon core

Shallow embedding of the vibecut video-editing daemon (Rust) in Lean 4,
with theorems settling the frozen specification claims.

Covered subsystems:
* the HTTP byte-range parser (`src/crates/daemon/src/api/media.rs`),
* the orchestrator mode decision (`src/crates/daemon/src/api/orchestrator.rs`),
* segment metadata computation (`src/crates/daemon/src/jobs/metadata.rs`),
* the job manager and scheduler poll (`src/crates/daemon/src/jobs/`),
* the readiness ensure-loop (`src/crates/daemon/src/orchestrator/ensure.rs`),
* the magnetic timeline operation engine (`src/crates/engine/src/ops.rs`).

Rust strings are modelled as `List Char` (written `Str`); on the ASCII data
appearing in this development, Rust byte lengths and byte slicing coincide
with character counts.  Rust `i64` arithmetic is modelled on `Int` (no
operation below approaches overflow), `u64` on `Nat` with explicit bounds
where the source checks them.
-/

namespace Vibecut

/-! ## Rust string primitives over `List Char` -/

/-- Rust `&str`, modelled as a list of characters. -/
abbrev Str := List Char

/-- Rust `str::split(sep)`: splits on every occurrence of the separator;
an empty input yields one empty piece, `"a--b"` yields `["a","","b"]`. -/
def splitChar (sep : Char) : Str → List Str
  | [] => [[]]
  | c :: cs =>
    if c = sep then [] :: splitChar sep cs
    else
      match splitChar sep cs with
      | h :: t => (c :: h) :: t
      | [] => [[c]]

/-- Rust `str::trim`: removes whitespace from both ends. -/
def strTrim (s : Str) : Str :=
  ((s.dropWhile Char.isWhitespace).reverse.dropWhile Char.isWhitespace).reverse

/-- Rust `str::to_lowercase`, restricted to the ASCII data used here. -/
def strToLower (s : Str) : Str := s.map Char.toLower

/-- Rust `str::contains(needle)` (substring test). -/
def strContains (hay needle : Str) : Bool :=
  (List.range (hay.length + 1)).any (fun i => needle.isPrefixOf (hay.drop i))

/-! ## Byte-range parser (`api/media.rs::parse_range`)

`parse_range(range_str, file_size)` parses an RFC-7233 `Range` header value.
The embedding mirrors the Rust line by line: strip the `bytes=` prefix,
split on `-`, require exactly two parts, trim each part, compute `start`
(suffix form when the first part is empty) and `end` (end-of-file when the
second part is empty), then validate.
-/

/-- Rust `str::parse::<u64>`: optional leading `+`, then one or more ASCII
digits, value below 2^64 (overflow is an error). -/
def parseU64 (s : Str) : Option Nat :=
  let body := if s.take 1 = ['+'] then s.drop 1 else s
  if body.isEmpty then none
  else if body.all Char.isDigit then
    let n := body.foldl (fun acc c => acc * 10 + (c.toNat - 48)) 0
    if n < 2 ^ 64 then some n else none
  else none

/-- `api/media.rs::parse_range`.  Returns the inclusive `(start, end)` byte
range, or `none` if the header is invalid. -/
def parse_range (range_str : Str) (file_size : Nat) : Option (Nat × Nat) :=
  if ¬ ("bytes=".data.isPrefixOf range_str) then none
  else
    let range := range_str.drop 6
    let parts := splitChar '-' range
    if parts.length ≠ 2 then none
    else
      let start_str := strTrim (parts.headD [])
      let end_str := strTrim ((parts.drop 1).headD [])
      if start_str.isEmpty ∧ end_str.isEmpty then none
      else
        let startOpt : Option Nat :=
          if start_str.isEmpty then
            -- suffix range: "-500" means last 500 bytes
            if file_size = 0 then none
            else match parseU64 end_str with
              | some suffix => some (if suffix > file_size then 0 else file_size - suffix)
              | none => none
          else parseU64 start_str
        match startOpt with
        | none => none
        | some start =>
          let endOpt : Option Nat :=
            if end_str.isEmpty then
              -- prefix range: "500-" means from byte 500 to end
              if file_size > 0 then some (file_size - 1) else none
            else parseU64 end_str
          match endOpt with
          | none => none
          | some e =>
            if file_size = 0 ∨ start > e ∨ e ≥ file_size then none
            else some (start, e)

/-- The range-handling step of `api/media.rs::stream_proxy` for a non-empty
file with a present, readable `Range` header: a successful parse yields
`(start, end, 206)`, an invalid header falls back to the full body with
status `200`. -/
def rangeDecision (range_str : Str) (file_size : Nat) : Nat × Nat × Nat :=
  match parse_range range_str file_size with
  | some (s, e) => (s, e, 206)
  | none => (0, file_size - 1, 200)

/-! ## Orchestrator mode decision (`api/orchestrator.rs::determine_mode`) -/

/-- The six orchestrator modes. -/
inductive AgentMode
  | TalkConfirm
  | TalkImport
  | TalkAnalyze
  | Busy
  | TalkClarify
  | Act
deriving DecidableEq, Repr

/-- The preconditions snapshot consumed by `determine_mode`.  The source
computes `embedding_coverage` as an `f32` ratio; it is modelled here as an
exact rational, which agrees with the source on every comparison against
the `0.8` threshold performed at this call site. -/
structure ProjectState where
  mediaAssetsCount : Nat
  segmentsCount : Nat
  segmentsWithTextEmbeddings : Nat
  segmentsWithVisionEmbeddings : Nat
  embeddingCoverage : ℚ
  jobsRunningCount : Nat
  jobsFailedCount : Nat
deriving DecidableEq, Repr

/-- The fixed vague phrases checked by rule 5 of `determine_mode`. -/
def ambiguousPhrases : List Str :=
  ["make this good".data, "do your thing".data, "edit my vlog".data,
   "fix this".data, "improve this".data]

/-- `api/orchestrator.rs::determine_mode`: the ordered mode cascade.  The
conditions are the Rust boolean tests. -/
def determine_mode (user_intent : Str) (state : ProjectState)
    (is_destructive : Bool) (confirm_token : Option Str) : AgentMode :=
  -- 1. destructive actions need confirmation
  if is_destructive && confirm_token.isNone then .TalkConfirm
  -- 2. no media assets
  else if state.mediaAssetsCount == 0 then .TalkImport
  -- 3. no segments
  else if state.segmentsCount == 0 then .TalkAnalyze
  -- 4. jobs running or embedding coverage incomplete
  else if decide (state.jobsRunningCount > 0) || decide (state.embeddingCoverage < 4 / 5) then
    .Busy
  -- 5. ambiguous intent
  else if ambiguousPhrases.any (fun p => strContains (strToLower user_intent) p) then
    .TalkClarify
  -- 6. ready to act
  else .Act

/-- Spec-side formulation of the mode decision: an explicit ordered rule
list, of which the first applicable rule fires, with `Act` as the default.
Written from the claim's words (§4.7 of the spec), to be compared with the
source translation `determine_mode`. -/
def modeRules (user_intent : Str) (state : ProjectState)
    (is_destructive : Bool) (confirm_token : Option Str) :
    List (Bool × AgentMode) :=
  [(is_destructive && confirm_token.isNone, .TalkConfirm),
   (state.mediaAssetsCount == 0, .TalkImport),
   (state.segmentsCount == 0, .TalkAnalyze),
   (decide (state.jobsRunningCount > 0) || decide (state.embeddingCoverage < 4 / 5), .Busy),
   (ambiguousPhrases.any (fun p => strContains (strToLower user_intent) p), .TalkClarify)]

/-- The first rule whose condition holds fires; otherwise the default. -/
def firstApplicableMode : List (Bool × AgentMode) → AgentMode
  | [] => .Act
  | (cond, m) :: rest => if cond then m else firstApplicableMode rest

/-! ## Segment metadata (`jobs/metadata.rs::process_compute_segment_metadata`)

Only the `summary_text` computation is modelled here (the claimed
property).  The stored `scene_json` blob is modelled by the outcomes of
`serde_json::from_str` relevant to the summary: a parse failure, or a
parsed object whose `tags` key is absent or holds a list of strings (the
source's `filter_map(as_str)` over the tag array). -/

/-- Parse outcome of a segment's `scene_json` blob. -/
inductive SceneJson
  | malformed
  | parsed (tags : Option (List Str))
deriving DecidableEq

/-- Rust `Vec<&str>::join(" ")`. -/
def joinSpace : List Str → Str
  | [] => []
  | [x] => x
  | x :: xs => x ++ ' ' :: joinSpace xs

/-- The `summary_text` computation of
`jobs/metadata.rs::process_compute_segment_metadata` for one segment. -/
def summary_text (transcript : Option Str) (scene_json : Option SceneJson) : Str :=
  match transcript with
  | some t =>
    -- first clause: text before the first '.' (the whole transcript when
    -- there is none; `split` always yields a first piece)
    let first_clause := (splitChar '.' t).headD t
    if 50 < first_clause.length then first_clause.take 50 ++ "...".data
    else first_clause
  | none =>
    match scene_json with
    | some (.parsed (some tags)) =>
      let tag_str := joinSpace tags
      if tag_str.isEmpty then "video segment".data else tag_str
    | some (.parsed none) => "video segment".data
    | some .malformed => "video segment".data
    | none => "video segment".data

/-- Spec-side summary as amended: first sentence of the transcript, and
when it exceeds 50 characters, its first 50 characters with an ellipsis
`"..."` appended; else joined scene tags when present and non-empty; else
`"video segment"`. -/
def summarySpec (transcript : Option Str) (scene_json : Option SceneJson) : Str :=
  match transcript with
  | some t =>
    let sentence := (splitChar '.' t).headD t
    if sentence.length ≤ 50 then sentence else sentence.take 50 ++ "...".data
  | none =>
    match scene_json with
    | some (.parsed (some tags)) =>
      if (joinSpace tags).isEmpty then "video segment".data else joinSpace tags
    | _ => "video segment".data

/-! ## Job graph runtime (`jobs/mod.rs`, `jobs/processor.rs`)

The `jobs` table is modelled as a list of rows in insertion (rowid) order.
`created_at` timestamps come from a logical clock carried by the state, so
`ORDER BY created_at ASC` coincides with a stable sort on that field.
Job payloads carry only the fields the modelled code reads
(`asset_id`, `media_asset_id`, `project_id`). -/

/-- `jobs/mod.rs::JobType`. -/
inductive JobTypeT
  | ImportRaw | GenerateProxy | Transcribe | AnalyzeVision | GenerateEdit
  | Export | BuildSegments | TranscribeAsset | AnalyzeVisionAsset
  | EnrichSegmentsFromTranscript | EnrichSegmentsFromVision
  | ComputeSegmentMetadata | EmbedSegments | IndexAssetWithTwelveLabs
deriving DecidableEq, Repr

/-- `JobType::to_string`: the plain variant name. -/
def JobTypeT.name : JobTypeT → Str
  | .ImportRaw => "ImportRaw".data
  | .GenerateProxy => "GenerateProxy".data
  | .Transcribe => "Transcribe".data
  | .AnalyzeVision => "AnalyzeVision".data
  | .GenerateEdit => "GenerateEdit".data
  | .Export => "Export".data
  | .BuildSegments => "BuildSegments".data
  | .TranscribeAsset => "TranscribeAsset".data
  | .AnalyzeVisionAsset => "AnalyzeVisionAsset".data
  | .EnrichSegmentsFromTranscript => "EnrichSegmentsFromTranscript".data
  | .EnrichSegmentsFromVision => "EnrichSegmentsFromVision".data
  | .ComputeSegmentMetadata => "ComputeSegmentMetadata".data
  | .EmbedSegments => "EmbedSegments".data
  | .IndexAssetWithTwelveLabs => "IndexAssetWithTwelveLabs".data

/-- `jobs/mod.rs::JobStatus`. -/
inductive JobStatusT
  | Pending | Running | Completed | Failed | Cancelled
deriving DecidableEq, Repr

/-- `JobStatus::to_string`: the plain variant name.  This is what
`create_job` and `update_job_status` write into the `status` column. -/
def JobStatusT.name : JobStatusT → Str
  | .Pending => "Pending".data
  | .Running => "Running".data
  | .Completed => "Completed".data
  | .Failed => "Failed".data
  | .Cancelled => "Cancelled".data

/-- The five plain status strings `JobStatus::to_string` can produce. -/
def plainStatusStrings : List Str :=
  ["Pending".data, "Running".data, "Completed".data, "Failed".data, "Cancelled".data]

/-- `serde_json::to_string` of a unit enum variant: the name wrapped in
JSON string quotes.  `get_ready_jobs` builds its `status = ?1` filter from
`serde_json::to_string(&JobStatus::Pending)`, producing `"Pending"`
including the quote characters. -/
def jsonEncName (name : Str) : Str := '"' :: name ++ ['"']

/-- The payload fields read by the modelled code. -/
structure Payload where
  assetId : Option Int
  mediaAssetId : Option Int
  projectId : Option Int
deriving DecidableEq, Repr

/-- One row of the `jobs` table. -/
structure JobRow where
  id : Int
  jobType : Str
  status : Str
  payload : Option Payload
  dedupeKey : Option Str
  isActive : Bool
  createdAt : Nat
deriving DecidableEq, Repr

/-- The job store: rows in rowid order, plus the rowid counter and a
logical clock standing in for `Utc::now()`. -/
structure JobsState where
  jobs : List JobRow
  nextId : Int
  clock : Nat
deriving DecidableEq, Repr

/-- The SQL filter `dedupe_key = ?1 AND is_active = 1` shared by
`create_job` and `ensure_ready`. -/
def jobMatchesActiveKey (k : Str) (j : JobRow) : Bool :=
  j.dedupeKey = some k && j.isActive

/-- The row `create_job` inserts: Pending, active, fresh rowid. -/
def mkPendingRow (st : JobsState) (jt : JobTypeT) (payload : Option Payload)
    (dedupe : Option Str) : JobRow :=
  { id := st.nextId, jobType := jt.name, status := JobStatusT.Pending.name,
    payload := payload, dedupeKey := dedupe, isActive := true,
    createdAt := st.clock }

/-- `jobs/mod.rs::JobManager::create_job`.  With a dedupe key, an existing
active job with the same key is returned without inserting; otherwise one
Pending row with `is_active = 1` is inserted. -/
def create_job (st : JobsState) (jt : JobTypeT) (payload : Option Payload)
    (dedupe : Option Str) : Int × JobsState :=
  let insert : Int × JobsState :=
    (st.nextId,
     { jobs := st.jobs ++ [mkPendingRow st jt payload dedupe],
       nextId := st.nextId + 1, clock := st.clock + 1 })
  match dedupe with
  | some k =>
    match st.jobs.find? (jobMatchesActiveKey k) with
    | some j => (j.id, st)
    | none => insert
  | none => insert

/-! ### Scheduler poll (`jobs/processor.rs::get_ready_jobs`) -/

/-- Readiness stamps of one `media_assets` row (a stamp is modelled by
whether the nullable `*_at` column is non-null). -/
structure AssetRow where
  id : Int
  projectId : Int
  durationTicks : Int
  segmentsBuilt : Bool
  transcriptReady : Bool
  visionReady : Bool
  metadataReady : Bool
  embeddingsReady : Bool
deriving DecidableEq, Repr

/-- The analysis stages `db/mod.rs::check_asset_prerequisites` knows. -/
inductive PrereqStage
  | segmentsBuilt | transcriptReady | visionReady | metadataReady | embeddingsReady
deriving DecidableEq, Repr

def AssetRow.stage (a : AssetRow) : PrereqStage → Bool
  | .segmentsBuilt => a.segmentsBuilt
  | .transcriptReady => a.transcriptReady
  | .visionReady => a.visionReady
  | .metadataReady => a.metadataReady
  | .embeddingsReady => a.embeddingsReady

/-- `db/mod.rs::check_asset_prerequisites`: true iff every named readiness
column is non-null; querying a missing asset is an error. -/
def check_asset_prerequisites (assets : List AssetRow) (assetId : Int)
    (required : List PrereqStage) : Except Str Bool :=
  match assets.find? (fun a => a.id = assetId) with
  | none => .error "no such asset".data
  | some a => .ok (required.all a.stage)

/-- `jobs/processor.rs::check_job_prerequisites` (note the `_ => Ok(true)`
catch-all, which covers `IndexAssetWithTwelveLabs` among others). -/
def check_job_prerequisites (assets : List AssetRow) (jt : JobTypeT)
    (assetId : Int) : Except Str Bool :=
  match jt with
  | .BuildSegments | .TranscribeAsset | .AnalyzeVisionAsset => .ok true
  | .EnrichSegmentsFromTranscript =>
    check_asset_prerequisites assets assetId [.segmentsBuilt, .transcriptReady]
  | .EnrichSegmentsFromVision =>
    check_asset_prerequisites assets assetId [.segmentsBuilt, .visionReady]
  | .ComputeSegmentMetadata =>
    check_asset_prerequisites assets assetId [.segmentsBuilt]
  | .EmbedSegments =>
    check_asset_prerequisites assets assetId [.metadataReady]
  | .GenerateProxy => .ok true
  | _ => .ok true

/-- `jobs/processor.rs::extract_asset_id`: payload field `asset_id`, else
`media_asset_id`. -/
def extract_asset_id (payload : Option Payload) : Option Int :=
  match payload with
  | none => none
  | some p =>
    match p.assetId with
    | some a => some a
    | none => p.mediaAssetId

/-- `serde_json::from_str::<JobType>` succeeds exactly on the
JSON-quoted variant names. -/
def jsonDecodeJobType (s : Str) : Option JobTypeT :=
  ([JobTypeT.ImportRaw, .GenerateProxy, .Transcribe, .AnalyzeVision,
    .GenerateEdit, .Export, .BuildSegments, .TranscribeAsset,
    .AnalyzeVisionAsset, .EnrichSegmentsFromTranscript,
    .EnrichSegmentsFromVision, .ComputeSegmentMetadata, .EmbedSegments,
    .IndexAssetWithTwelveLabs].find? (fun jt => s = jsonEncName jt.name))

/-- Stable insertion sort by `created_at` (ORDER BY created_at ASC). -/
def insertByCreated (j : JobRow) : List JobRow → List JobRow
  | [] => [j]
  | k :: ks =>
    if k.createdAt ≤ j.createdAt then k :: insertByCreated j ks
    else j :: k :: ks

def sortByCreated (l : List JobRow) : List JobRow :=
  l.foldl (fun acc j => insertByCreated j acc) []

/-- One step of the readiness scan in `get_ready_jobs`. -/
def readyStep (assets : List AssetRow) (j : JobRow) : Except Str (List Int) := do
  -- `serde_json::from_str(&job_type_str)?`: the `?` aborts the whole poll
  match jsonDecodeJobType j.jobType with
  | none => .error "invalid job type".data
  | some jt =>
    match extract_asset_id j.payload with
    | some assetId => do
      let ready ← check_job_prerequisites assets jt assetId
      pure (if ready then [j.id] else [])
    | none =>
      -- jobs without an asset binding run immediately only for these types
      match jt with
      | .ImportRaw | .GenerateEdit | .Export => pure [j.id]
      | _ => pure []

/-- `jobs/processor.rs::get_ready_jobs`: select rows whose stored `status`
equals the JSON-encoded Pending string, in ascending creation order, then
keep those whose type-specific prerequisites hold. -/
def get_ready_jobs (jobs : List JobRow) (assets : List AssetRow) :
    Except Str (List Int) :=
  let rows := sortByCreated
    (jobs.filter (fun j => j.status = jsonEncName JobStatusT.Pending.name))
  rows.foldlM (fun acc j => do
    let ids ← readyStep assets j
    pure (acc ++ ids)) []

/-! ## BuildSegments processor (`jobs/build_segments.rs`)

`process_build_segments` chunks the asset's duration into fixed 5-second
windows (`SEGMENT_DURATION_SECONDS * TICKS_PER_SECOND = 240000` ticks, the
last window possibly shorter), inserts one segment row per window, then
stamps `segments_built_at`.  The source contains no check of the readiness
stamp before chunking.  The `while current < duration` loop is modelled
with structural fuel `duration.toNat`; each iteration advances `current`
by at least one tick, so the fuel never runs out before the loop guard
fails. -/

/-- One row of the `segments` table as written by
`db/mod.rs::create_segment` (stable fields; the legacy `start_ticks` /
`end_ticks` columns receive the same values). -/
structure SegmentRow where
  projectId : Int
  mediaAssetId : Int
  srcInTicks : Int
  srcOutTicks : Int
deriving DecidableEq, Repr

/-- `engine/timeline.rs::TICKS_PER_SECOND`. -/
def TICKS_PER_SECOND : Int := 48000

/-- `(5.0_f64 * 48000.0) as i64`. -/
def segmentDurationTicks : Int := 5 * TICKS_PER_SECOND

/-- The fixed 5-second windows of `process_build_segments`'s while loop. -/
def chunkWindowsAux : Nat → Int → Int → List (Int × Int)
  | 0, _, _ => []
  | fuel + 1, duration, current =>
    if current < duration then
      let segmentEnd := min (current + segmentDurationTicks) duration
      (current, segmentEnd) :: chunkWindowsAux fuel duration segmentEnd
    else []

def chunkWindows (durationTicks : Int) : List (Int × Int) :=
  chunkWindowsAux durationTicks.toNat durationTicks 0

/-- The store state touched by `process_build_segments` for one asset:
that asset's rows in the `segments` table (in insertion order) and its
`segments_built_at` stamp. -/
structure BuildState where
  segments : List SegmentRow
  segmentsBuiltAt : Bool
deriving DecidableEq, Repr

/-- `jobs/build_segments.rs::process_build_segments` (store effects only;
progress reporting and the final job-status update touch the jobs table,
not this state).  Segments are inserted unconditionally and the readiness
stamp is then set. -/
def process_build_segments (projectId assetId durationTicks : Int)
    (st : BuildState) : BuildState :=
  { segments := st.segments ++
      (chunkWindows durationTicks).map
        (fun w => ⟨projectId, assetId, w.1, w.2⟩),
    segmentsBuiltAt := true }

/-! ## Readiness ensure-loop (`orchestrator/ensure.rs`) -/

/-- `orchestrator/state.rs::AssetReadiness`. -/
inductive AssetReadiness
  | Imported | Segmented | Enriched | MetadataReady | Embedded | IndexedExternal
deriving DecidableEq, Repr

/-- `ensure.rs::compute_missing_steps`, unfolded along its recursion (each
recursive call passes a literal next level).  The guards mirror the Rust
match arms exactly. -/
def stepsFromEmbedded (t : AssetReadiness) : List JobTypeT :=
  if t ≠ .Embedded ∧ t ≠ .MetadataReady ∧ t ≠ .Enriched ∧ t ≠ .Segmented then
    [.IndexAssetWithTwelveLabs]
  else []

def stepsFromMetadataReady (t : AssetReadiness) : List JobTypeT :=
  if t ≠ .MetadataReady ∧ t ≠ .Enriched ∧ t ≠ .Segmented then
    .EmbedSegments :: stepsFromEmbedded t
  else []

def stepsFromEnriched (t : AssetReadiness) : List JobTypeT :=
  if t ≠ .Enriched ∧ t ≠ .Segmented then
    .ComputeSegmentMetadata :: stepsFromMetadataReady t
  else []

def stepsFromSegmented (t : AssetReadiness) : List JobTypeT :=
  if t ≠ .Segmented then
    .TranscribeAsset :: .AnalyzeVisionAsset :: stepsFromEnriched t
  else []

def compute_missing_steps : AssetReadiness → AssetReadiness → List JobTypeT
  | .Imported, t => .BuildSegments :: stepsFromSegmented t
  | .Segmented, t => stepsFromSegmented t
  | .Enriched, t => stepsFromEnriched t
  | .MetadataReady, t => stepsFromMetadataReady t
  | .Embedded, t => stepsFromEmbedded t
  | .IndexedExternal, _ => []

/-- `format!("{}", asset_id)`. -/
def intToStr (i : Int) : Str :=
  if i < 0 then '-' :: Nat.toDigits 10 i.natAbs else Nat.toDigits 10 i.toNat

/-- `format!("{}:{}", job_type.to_string(), asset_id)`. -/
def dedupeKeyFor (jt : JobTypeT) (assetId : Int) : Str :=
  jt.name ++ ':' :: intToStr assetId

/-- Per-asset view consumed by `ensure_ready` (from
`orchestrator/state.rs::get_asset_states`). -/
structure AssetState where
  assetId : Int
  readiness : AssetReadiness
deriving DecidableEq, Repr

/-- One missing step of `ensure_ready`'s inner loop: skip when an active
job with the dedupe key exists, else enqueue through `create_job`. -/
def ensureStep (projectId : Int) (assetId : Int) (st : JobsState)
    (jt : JobTypeT) : JobsState × Option Int :=
  let key := dedupeKeyFor jt assetId
  if st.jobs.any (jobMatchesActiveKey key) then (st, none)
  else
    let (jobId, st') := create_job st jt
      (some ⟨some assetId, none, some projectId⟩) (some key)
    (st', some jobId)

/-- The inner loop over one asset's missing steps, accumulating the
enqueued job ids. -/
def ensureSteps (projectId assetId : Int) :
    JobsState → List JobTypeT → JobsState × List Int
  | st, [] => (st, [])
  | st, jt :: rest =>
    let (st', enq) := ensureStep projectId assetId st jt
    let (st'', enqs) := ensureSteps projectId assetId st' rest
    (st'', (enq.toList) ++ enqs)

/-- `ensure_ready`'s treatment of one asset. -/
def ensureAsset (projectId : Int) (target : AssetReadiness) (st : JobsState)
    (a : AssetState) : JobsState × List Int :=
  if a.readiness = target then (st, [])
  else ensureSteps projectId a.assetId st (compute_missing_steps a.readiness target)

/-- `orchestrator/ensure.rs::ensure_ready`, restricted to its effect on the
jobs table and its `enqueued_jobs` result field. -/
def ensure_ready (projectId : Int) (target : AssetReadiness) :
    JobsState → List AssetState → JobsState × List Int
  | st, [] => (st, [])
  | st, a :: rest =>
    let (st', enq) := ensureAsset projectId target st a
    let (st'', enqs) := ensure_ready projectId target st' rest
    (st'', enq ++ enqs)

/-! ## Timeline engine (`engine/src/timeline.rs`, `engine/src/ops.rs`)

In-place mutation of `&mut self` is modelled by explicit state passing:
`apply_operation` returns the result together with the timeline it leaves
behind (identical to the input on every error path of the source, which
this development proves).  UUID generation is modelled by a counter
threaded through the operations; clip ids only ever participate in
equality tests.  `f64` speeds are modelled as rationals (they are only
ever copied or set to 1).  `Vec::sort_by_key` is a stable sort and is
modelled by stable insertion sort. -/

/-- `engine/timeline.rs::ClipInstance` (with the `id` field used
throughout `ops.rs` and §4.6 of the specification). -/
structure ClipInstance where
  id : Str
  assetId : Int
  inTicks : Int
  outTicks : Int
  timelineStartTicks : Int
  speed : ℚ
  trackId : Int
deriving DecidableEq, Repr

inductive TrackKind
  | Video | Audio | Caption
deriving DecidableEq, Repr

structure Track where
  id : Int
  kind : TrackKind
  clips : List ClipInstance
deriving DecidableEq, Repr

structure CaptionEvent where
  startTicks : Int
  endTicks : Int
  text : Str
deriving DecidableEq, Repr

structure MusicEvent where
  startTicks : Int
  endTicks : Int
  trackPath : Str
deriving DecidableEq, Repr

structure Marker where
  positionTicks : Int
  label : Option Str
deriving DecidableEq, Repr

structure ProjectSettings where
  fps : ℚ
  width : Int
  height : Int
  sampleRate : Int
  ticksPerSecond : Int
deriving DecidableEq, Repr

structure Timeline where
  settings : ProjectSettings
  tracks : List Track
  captions : List CaptionEvent
  music : List MusicEvent
  markers : List Marker
deriving DecidableEq, Repr

/-- `engine/ops.rs::TimelineOperation`. -/
inductive TimelineOperation
  | SplitClip (clipId : Str) (positionTicks : Int)
  | TrimClip (clipId : Str) (newInTicks newOutTicks : Int)
  | DeleteClip (clipId : Str)
  | InsertClip (assetId positionTicks trackId durationTicks : Int)
  | MoveClip (clipId : Str) (newPositionTicks : Int)
  | ReorderClip (clipId : Str) (newPositionTicks : Int)
  | MoveClipToTrack (clipId : Str) (newTrackId : Int)
  | RippleInsertClip (assetId positionTicks durationTicks : Int)
  | OverwriteClip (assetId positionTicks durationTicks : Int)
  | InsertLayeredClip (assetId positionTicks durationTicks baseTrackId : Int)
  | ConvertPrimaryToOverlay (clipId : Str) (positionTicks : Int)
  | ConvertOverlayToPrimary (clipId : Str) (positionTicks : Int)
  | ConsolidateTimeline
  | ClearTimeline
deriving DecidableEq, Repr

/-- `clip.out_ticks - clip.in_ticks`. -/
def clipDur (c : ClipInstance) : Int := c.outTicks - c.inTicks

/-- `clip.timeline_start_ticks + (clip.out_ticks - clip.in_ticks)`. -/
def clipEnd (c : ClipInstance) : Int := c.timelineStartTicks + clipDur c

/-- A fresh clip id from the counter (stands in for `Uuid::new_v4`). -/
def mkClipId (n : Nat) : Str := "clip-".data ++ Nat.toDigits 10 n

/-- `iter_mut().find(p)` followed by in-place mutation: rewrite the first
track satisfying `p`, leave the rest (and a no-match list) unchanged. -/
def modifyFirstTrack (p : Track → Bool) (f : Track → Track) :
    List Track → List Track
  | [] => []
  | tr :: rest =>
    if p tr then f tr :: rest else tr :: modifyFirstTrack p f rest

/-- Assign contiguous start positions from `cur` (the repack loop body). -/
def assignStarts (cur : Int) : List ClipInstance → List ClipInstance
  | [] => []
  | c :: cs =>
    { c with timelineStartTicks := cur } :: assignStarts (cur + clipDur c) cs

/-- Stable insertion sort by `timeline_start_ticks` (models the stable
`sort_by_key`). -/
def insertByStart (c : ClipInstance) : List ClipInstance → List ClipInstance
  | [] => [c]
  | d :: ds =>
    if d.timelineStartTicks ≤ c.timelineStartTicks then d :: insertByStart c ds
    else c :: d :: ds

def sortByStart (l : List ClipInstance) : List ClipInstance :=
  l.foldl (fun acc c => insertByStart c acc) []

/-- `ops.rs::Timeline::repack_primary_timeline`: on the first track with
id 1 (if any), sort the clips by start and repack them contiguously
from 0. -/
def repackPrimary (t : Timeline) : Timeline :=
  let f : Track → Track := fun tr =>
    { tr with clips := assignStarts 0 (sortByStart tr.clips) }
  { t with tracks := modifyFirstTrack (fun tr => tr.id = 1) f t.tracks }

/-- The per-track overlap test inside `find_available_overlay_lane`. -/
def trackOverlaps (tr : Track) (positionTicks durationTicks : Int) : Bool :=
  tr.clips.any (fun c =>
    positionTicks < clipEnd c ∧ positionTicks + durationTicks > c.timelineStartTicks)

/-- `ops.rs::Timeline::find_available_overlay_lane`: scan the tracks with
id above the base in track-list order, return the first without an
overlap; otherwise one more than the largest id above the base (the base
itself when there is none). -/
def find_available_overlay_lane (t : Timeline) (baseTrackId positionTicks
    durationTicks : Int) : Int :=
  match (t.tracks.filter (fun tr => tr.id > baseTrackId)).find?
      (fun tr => ! trackOverlaps tr positionTicks durationTicks) with
  | some tr => tr.id
  | none =>
    ((t.tracks.filter (fun tr => tr.id > baseTrackId)).map Track.id).foldl
      max baseTrackId + 1

/-- `ops.rs::Timeline::consolidate_timeline`: ensure a primary track
exists (the `clips_to_move` vector of the source is always empty, so the
append step is a no-op), drop empty non-primary tracks, then repack the
primary track. -/
def consolidate_timeline (t : Timeline) : Timeline :=
  let tracks1 :=
    if t.tracks.any (fun tr => tr.id = 1) then t.tracks
    else t.tracks ++ [⟨1, .Video, []⟩]
  let tracks2 := tracks1.filter (fun tr => tr.id = 1 ∨ ¬ tr.clips.isEmpty)
  repackPrimary { t with tracks := tracks2 }

/-- Result of one `apply_operation` call: the `Result<(), String>` value
plus the timeline (and fresh-id counter) it leaves behind. -/
structure ApplyResult where
  res : Except Str Unit
  timeline : Timeline
  fresh : Nat
deriving Repr

/-- Split the first clip with the given id inside one track's clip list;
`none` when the clip is absent from the list or the position is not
strictly inside it (in the latter case the source moves on to the next
track without mutating). -/
def splitClips (clipId : Str) (positionTicks : Int) (fresh : Nat) :
    List ClipInstance → Option (List ClipInstance)
  | [] => none
  | c :: cs =>
    if c.id = clipId then
      if positionTicks > c.timelineStartTicks ∧ positionTicks < clipEnd c then
        let relativePos := positionTicks - c.timelineStartTicks
        let splitIn := c.inTicks + relativePos
        let newClip : ClipInstance :=
          ⟨mkClipId fresh, c.assetId, splitIn, c.outTicks, positionTicks,
           c.speed, c.trackId⟩
        some ({ c with outTicks := splitIn } :: newClip :: cs)
      else none
    else (splitClips clipId positionTicks fresh cs).map (c :: ·)

/-- Trim the first clip with the given id inside one track's clip list. -/
def trimClips (clipId : Str) (newInTicks newOutTicks : Int) :
    List ClipInstance → Option (List ClipInstance)
  | [] => none
  | c :: cs =>
    if c.id = clipId then
      let inDelta := newInTicks - c.inTicks
      let c' := { c with inTicks := newInTicks, outTicks := newOutTicks }
      some ({ c' with timelineStartTicks := c.timelineStartTicks + inDelta } :: cs)
    else (trimClips clipId newInTicks newOutTicks cs).map (c :: ·)

/-- Scan the tracks in order; the first on which `f` succeeds is replaced,
the rest are untouched; `none` if `f` fails everywhere. -/
def scanTracks (f : Track → Option Track) : List Track → Option (List Track)
  | [] => none
  | tr :: rest =>
    match f tr with
    | some tr' => some (tr' :: rest)
    | none => (scanTracks f rest).map (tr :: ·)

/-- Remove the first clip with the given id from a clip list, returning it
and the remainder. -/
def extractClip (clipId : Str) :
    List ClipInstance → Option (ClipInstance × List ClipInstance)
  | [] => none
  | c :: cs =>
    if c.id = clipId then some (c, cs)
    else (extractClip clipId cs).map (fun p => (p.1, c :: p.2))

/-- Remove the first occurrence of a clip across the tracks (the loop with
`break` of DeleteClip / MoveClipToTrack): the clip, the id of the track it
was on, and the updated track list. -/
def removeFromTracks (clipId : Str) :
    List Track → Option (ClipInstance × Int × List Track)
  | [] => none
  | tr :: rest =>
    match extractClip clipId tr.clips with
    | some (c, cl) => some (c, tr.id, { tr with clips := cl } :: rest)
    | none =>
      (removeFromTracks clipId rest).map (fun p => (p.1, p.2.1, tr :: p.2.2))

/-- Shift every clip starting strictly after `pos` left by `dur` (gap
collapse after a removal from the primary track). -/
def collapseGap (pos dur : Int) (l : List ClipInstance) : List ClipInstance :=
  l.map (fun o =>
    if o.timelineStartTicks > pos then
      { o with timelineStartTicks := o.timelineStartTicks - dur }
    else o)

/-- Shift every clip starting at or after `pos` right by `dur` (the ripple
shift before an insertion). -/
def shiftRightFrom (pos dur : Int) (l : List ClipInstance) : List ClipInstance :=
  l.map (fun o =>
    if o.timelineStartTicks ≥ pos then
      { o with timelineStartTicks := o.timelineStartTicks + dur }
    else o)

/-- MoveClip's first loop: remove the first occurrence of the clip and, if
it was on the primary track, collapse the gap it leaves, in the same
pass. -/
def removeCollapse (clipId : Str) :
    List Track → Option (ClipInstance × Int × List Track)
  | [] => none
  | tr :: rest =>
    match extractClip clipId tr.clips with
    | some (c, cl) =>
      let cl' := if tr.id = 1 then collapseGap c.timelineStartTicks (clipDur c) cl
                 else cl
      some (c, tr.id, { tr with clips := cl' } :: rest)
    | none =>
      (removeCollapse clipId rest).map (fun p => (p.1, p.2.1, tr :: p.2.2))

/-- `position(|c| c.start > x).unwrap_or(len)` + `insert`: insert before
the first clip starting strictly later. -/
def insertSorted (c : ClipInstance) : List ClipInstance → List ClipInstance
  | [] => [c]
  | d :: ds =>
    if d.timelineStartTicks > c.timelineStartTicks then c :: d :: ds
    else d :: insertSorted c ds

/-- `.map(end).max().unwrap_or(0)`: the end of the last clip, or 0. -/
def timelineEndOf (clips : List ClipInstance) : Int :=
  ((clips.map clipEnd).max?).getD 0

/-- The clip built by the insertion operations: source bounds `0..dur`,
speed 1, fresh id. -/
def mkInsertClip (fresh : Nat) (assetId positionTicks durationTicks
    trackId : Int) : ClipInstance :=
  ⟨mkClipId fresh, assetId, 0, durationTicks, positionTicks, 1, trackId⟩

/-- The `retain_mut` body of OverwriteClip over one clip list. -/
def overwriteClips (positionTicks insertEndTicks : Int) :
    List ClipInstance → List ClipInstance
  | [] => []
  | c :: cs =>
    let rest := overwriteClips positionTicks insertEndTicks cs
    if positionTicks < clipEnd c ∧ insertEndTicks > c.timelineStartTicks then
      if positionTicks ≤ c.timelineStartTicks ∧ insertEndTicks ≥ clipEnd c then
        -- completely covered: remove
        rest
      else if positionTicks > c.timelineStartTicks ∧ insertEndTicks < clipEnd c then
        -- middle overlap: keep the left part only
        { c with outTicks := c.inTicks + (positionTicks - c.timelineStartTicks) } :: rest
      else if positionTicks ≤ c.timelineStartTicks then
        -- overlap from the left: trim the start
        let trimAmount := insertEndTicks - c.timelineStartTicks
        let c0 := { c with timelineStartTicks := insertEndTicks }
        let c' := { c0 with inTicks := c.inTicks + trimAmount }
        if c'.outTicks > c'.inTicks then c' :: rest else rest
      else
        -- overlap from the right: trim the end
        let c' := { c with outTicks := c.inTicks + (positionTicks - c.timelineStartTicks) }
        if c'.outTicks > c'.inTicks then c' :: rest else rest
    else c :: rest

/-- The primary-track selection of RippleInsertClip / OverwriteClip: the
first track with id 1, else the first track, else a newly created primary
track.  Returns the (possibly extended) track list and the id of the
chosen track (which identifies it as the first track with that id). -/
def ripplePrimaryTarget (tracks : List Track) : List Track × Int :=
  match tracks.find? (fun tr => tr.id = 1) with
  | some _ => (tracks, 1)
  | none =>
    match tracks with
    | tr :: _ => (tracks, tr.id)
    | [] => ([⟨1, .Video, []⟩], 1)

/-- Find-or-create a track with the given id (a created track is appended
at the end, as `self.tracks.push` does). -/
def ensureTrack (tracks : List Track) (trackId : Int) : List Track :=
  if tracks.any (fun tr => tr.id = trackId) then tracks
  else tracks ++ [⟨trackId, .Video, []⟩]

/-- Remove the first clip with the given id from the overlay video tracks
(id > 1, Video kind) — ConvertOverlayToPrimary's search loop. -/
def removeFromOverlay (clipId : Str) :
    List Track → Option (ClipInstance × Int × List Track)
  | [] => none
  | tr :: rest =>
    if tr.id > 1 ∧ tr.kind = .Video then
      match extractClip clipId tr.clips with
      | some (c, cl) => some (c, tr.id, { tr with clips := cl } :: rest)
      | none =>
        (removeFromOverlay clipId rest).map (fun p => (p.1, p.2.1, tr :: p.2.2))
    else
      (removeFromOverlay clipId rest).map (fun p => (p.1, p.2.1, tr :: p.2.2))

/-- `ops.rs::Timeline::apply_operation`.  The returned timeline is the
state the call leaves behind, on success and on error alike. -/
def apply_operation (t : Timeline) (op : TimelineOperation) (fresh : Nat) :
    ApplyResult :=
  match op with
  | .SplitClip clipId positionTicks =>
    match scanTracks (fun tr =>
        (splitClips clipId positionTicks fresh tr.clips).map
          (fun cl => { tr with clips := cl })) t.tracks with
    | some tracks' => ⟨.ok (), { t with tracks := tracks' }, fresh + 1⟩
    | none => ⟨.error "Clip not found or position invalid".data, t, fresh⟩
  | .TrimClip clipId newInTicks newOutTicks =>
    match scanTracks (fun tr =>
        (trimClips clipId newInTicks newOutTicks tr.clips).map
          (fun cl => { tr with clips := cl })) t.tracks with
    | some tracks' => ⟨.ok (), { t with tracks := tracks' }, fresh⟩
    | none => ⟨.error "Clip not found".data, t, fresh⟩
  | .DeleteClip clipId =>
    match removeFromTracks clipId t.tracks with
    | none => ⟨.error "Clip not found".data, t, fresh⟩
    | some (c, trackId, tracks') =>
      if trackId = 1 then
        -- ripple delete: shift later primary clips left, then repack
        let f : Track → Track := fun tr =>
          { tr with clips := collapseGap c.timelineStartTicks (clipDur c) tr.clips }
        let t1 : Timeline := { t with tracks := modifyFirstTrack (fun tr => tr.id = 1) f tracks' }
        ⟨.ok (), repackPrimary t1, fresh⟩
      else ⟨.ok (), { t with tracks := tracks' }, fresh⟩
  | .InsertClip assetId positionTicks trackId durationTicks =>
    let actualTrackId := if trackId = 1 ∨ trackId ≤ 0 then 1 else trackId
    let tracksW := ensureTrack t.tracks actualTrackId
    let newClip := mkInsertClip fresh assetId positionTicks durationTicks actualTrackId
    let tracks' := modifyFirstTrack (fun tr => tr.id = actualTrackId)
      (fun tr => { tr with clips := tr.clips ++ [newClip] }) tracksW
    let t' : Timeline := { t with tracks := tracks' }
    ⟨.ok (), if actualTrackId = 1 then repackPrimary t' else t', fresh + 1⟩
  | .MoveClip clipId newPositionTicks =>
    match removeCollapse clipId t.tracks with
    | none => ⟨.error "Clip not found".data, t, fresh⟩
    | some (c, origTrackId, tracks') =>
      if origTrackId = 1 then
        match tracks'.find? (fun tr => tr.id = 1) with
        | none => ⟨.error "Primary track not found".data, { t with tracks := tracks' }, fresh⟩
        | some primary =>
          let timelineEnd := timelineEndOf primary.clips
          let clampedPosition := min (max newPositionTicks 0) timelineEnd
          let c' := { c with timelineStartTicks := clampedPosition }
          let g : Track → Track := fun tr =>
            { tr with clips := insertSorted c' (shiftRightFrom clampedPosition (clipDur c) tr.clips) }
          let tracks'' := modifyFirstTrack (fun tr => tr.id = 1) g tracks'
          ⟨.ok (), repackPrimary { t with tracks := tracks'' }, fresh⟩
      else
        let c' := { c with timelineStartTicks := newPositionTicks }
        let tracks'' := modifyFirstTrack (fun tr => tr.id = origTrackId)
          (fun tr => { tr with clips := insertSorted c' tr.clips }) tracks'
        ⟨.ok (), { t with tracks := tracks'' }, fresh⟩
  | .ReorderClip clipId newPositionTicks =>
    match t.tracks.find? (fun tr => tr.id = 1) with
    | none => ⟨.error "Clip not found in primary track".data, t, fresh⟩
    | some prim =>
      match extractClip clipId prim.clips with
      | none => ⟨.error "Clip not found in primary track".data, t, fresh⟩
      | some (c, cl) =>
        let cl' := collapseGap c.timelineStartTicks (clipDur c) cl
        let tracks1 := modifyFirstTrack (fun tr => tr.id = 1)
          (fun tr => { tr with clips := cl' }) t.tracks
        match tracks1.find? (fun tr => tr.id = 1) with
        | none => ⟨.ok (), { t with tracks := tracks1 }, fresh⟩
        | some primary =>
          let timelineEnd := timelineEndOf primary.clips
          let clampedPosition := min (max newPositionTicks 0) timelineEnd
          let c' := { c with timelineStartTicks := clampedPosition }
          let g : Track → Track := fun tr =>
            { tr with clips := insertSorted c' (shiftRightFrom clampedPosition (clipDur c) tr.clips) }
          let tracks2 := modifyFirstTrack (fun tr => tr.id = 1) g tracks1
          ⟨.ok (), repackPrimary { t with tracks := tracks2 }, fresh⟩
  | .MoveClipToTrack clipId newTrackId =>
    match removeFromTracks clipId t.tracks with
    | none => ⟨.error "Clip not found".data, t, fresh⟩
    | some (c, _, tracks') =>
      let tracksW := ensureTrack tracks' newTrackId
      let c' := { c with trackId := newTrackId }
      let tracks'' := modifyFirstTrack (fun tr => tr.id = newTrackId)
        (fun tr => { tr with clips := tr.clips ++ [c'] }) tracksW
      ⟨.ok (), { t with tracks := tracks'' }, fresh⟩
  | .RippleInsertClip assetId positionTicks durationTicks =>
    let (tracksW, targetId) := ripplePrimaryTarget t.tracks
    let newClip := mkInsertClip fresh assetId positionTicks durationTicks targetId
    let g : Track → Track := fun tr =>
      { tr with clips := insertSorted newClip (shiftRightFrom positionTicks durationTicks tr.clips) }
    let tracks' := modifyFirstTrack (fun tr => tr.id = targetId) g tracksW
    ⟨.ok (), repackPrimary { t with tracks := tracks' }, fresh + 1⟩
  | .OverwriteClip assetId positionTicks durationTicks =>
    let (tracksW, targetId) := ripplePrimaryTarget t.tracks
    let insertEndTicks := positionTicks + durationTicks
    let newClip := mkInsertClip fresh assetId positionTicks durationTicks targetId
    let g : Track → Track := fun tr =>
      { tr with clips := insertSorted newClip (overwriteClips positionTicks insertEndTicks tr.clips) }
    let tracks' := modifyFirstTrack (fun tr => tr.id = targetId) g tracksW
    ⟨.ok (), { t with tracks := tracks' }, fresh + 1⟩
  | .InsertLayeredClip assetId positionTicks durationTicks baseTrackId =>
    let overlayTrackId := find_available_overlay_lane t baseTrackId positionTicks durationTicks
    let tracksW := ensureTrack t.tracks overlayTrackId
    let newClip := mkInsertClip fresh assetId positionTicks durationTicks overlayTrackId
    let tracks' := modifyFirstTrack (fun tr => tr.id = overlayTrackId)
      (fun tr => { tr with clips := insertSorted newClip tr.clips }) tracksW
    ⟨.ok (), { t with tracks := tracks' }, fresh + 1⟩
  | .ConvertPrimaryToOverlay clipId positionTicks =>
    match t.tracks.find? (fun tr => tr.id = 1) with
    | none => ⟨.error "Clip not found in primary track".data, t, fresh⟩
    | some prim =>
      match extractClip clipId prim.clips with
      | none => ⟨.error "Clip not found in primary track".data, t, fresh⟩
      | some (c, cl) =>
        let cl' := collapseGap c.timelineStartTicks (clipDur c) cl
        let tracksC := modifyFirstTrack (fun tr => tr.id = 1)
          (fun tr => { tr with clips := cl' }) t.tracks
        let t1 := repackPrimary { t with tracks := tracksC }
        let overlayTrackId := find_available_overlay_lane t1 1 positionTicks (clipDur c)
        let tracksW := ensureTrack t1.tracks overlayTrackId
        let c' := { c with timelineStartTicks := positionTicks, trackId := overlayTrackId }
        let tracks' := modifyFirstTrack (fun tr => tr.id = overlayTrackId)
          (fun tr => { tr with clips := insertSorted c' tr.clips }) tracksW
        ⟨.ok (), { t1 with tracks := tracks' }, fresh⟩
  | .ConvertOverlayToPrimary clipId positionTicks =>
    match removeFromOverlay clipId t.tracks with
    | none => ⟨.error "Clip not found in overlay track".data, t, fresh⟩
    | some (c, sourceTrackId, tracks') =>
      let tracksW := ensureTrack tracks' 1
      let primaryClips := ((tracksW.find? (fun tr => tr.id = 1)).map Track.clips).getD []
      let timelineEnd := timelineEndOf primaryClips
      let clampedPosition := min (max positionTicks 0) timelineEnd
      let c' := { c with timelineStartTicks := clampedPosition, trackId := 1 }
      let g : Track → Track := fun tr =>
        { tr with clips := insertSorted c' (shiftRightFrom clampedPosition (clipDur c) tr.clips) }
      let tracks'' := modifyFirstTrack (fun tr => tr.id = 1) g tracksW
      let t2 := repackPrimary { t with tracks := tracks'' }
      let sourceEmpty :=
        match t2.tracks.find? (fun tr => tr.id = sourceTrackId) with
        | some tr => tr.clips.isEmpty
        | none => false
      let tracksF := if sourceEmpty then t2.tracks.filter (fun tr => ¬ tr.id = sourceTrackId)
                     else t2.tracks
      ⟨.ok (), { t2 with tracks := tracksF }, fresh⟩
  | .ConsolidateTimeline => ⟨.ok (), consolidate_timeline t, fresh⟩
  | .ClearTimeline =>
    let t' : Timeline :=
      { t with
        tracks := t.tracks.map (fun tr => { tr with clips := [] })
        captions := []
        music := []
        markers := [] }
    ⟨.ok (), t', fresh⟩

/-- The operation loop of `api/timeline.rs::apply_operations`: apply each
operation in order; the first failure aborts with `400` (the timeline is
then not persisted). -/
def applyOps : Timeline → List TimelineOperation → Nat →
    Except Str (Timeline × Nat)
  | t, [], fresh => .ok (t, fresh)
  | t, op :: rest, fresh =>
    let r := apply_operation t op fresh
    match r.res with
    | .error e => .error e
    | .ok _ => applyOps r.timeline rest r.fresh

/-- The public apply entry point (`api/timeline.rs::apply_operations`,
state effect): apply the operations, then run the implicit
`consolidate_timeline`, producing the timeline that is serialized and
persisted. -/
def apply_operations (t : Timeline) (ops : List TimelineOperation) (fresh : Nat) :
    Except Str Timeline :=
  (applyOps t ops fresh).map (fun p => consolidate_timeline p.1)

/-- The primary storyline: the (first) track with id 1. -/
def primaryTrack? (t : Timeline) : Option Track :=
  t.tracks.find? (fun tr => tr.id = 1)

/-- (M3) gaplessness: each clip starts where the previous one ends. -/
def gapless (clips : List ClipInstance) : Prop :=
  List.Chain' (fun a b => b.timelineStartTicks = clipEnd a) clips

/-- (M1) the clip list is sorted by `timeline_start_ticks`. -/
def sortedByStartProp (clips : List ClipInstance) : Prop :=
  List.Chain' (fun a b => a.timelineStartTicks ≤ b.timelineStartTicks) clips

/-- (M2) the first clip begins at 0. -/
def startsAtZero (clips : List ClipInstance) : Prop :=
  ∀ c, clips.head? = some c → c.timelineStartTicks = 0

/-- The clip list of the primary storyline (empty when no track has
id 1). -/
def primaryClips (t : Timeline) : List ClipInstance :=
  ((primaryTrack? t).map Track.clips).getD []

/-! ## Concrete instances used by witnesses and counterexamples -/

def settingsW : ProjectSettings := ⟨30, 1920, 1080, 48000, 48000⟩

/-- A primary track with two 10-tick clips. -/
def twoClipTimeline : Timeline :=
  ⟨settingsW,
   [⟨1, .Video, [⟨"A".data, 7, 0, 10, 0, 1, 1⟩, ⟨"B".data, 7, 0, 10, 10, 1, 1⟩]⟩],
   [], [], []⟩

/-- `twoClipTimeline` after the public apply of
`TrimClip{A, new_in=0, new_out=-5}`: clip A now has negative duration and
the repack places B at start `-5`. -/
def twoClipTrimmed : Timeline :=
  ⟨settingsW,
   [⟨1, .Video, [⟨"A".data, 7, 0, -5, 0, 1, 1⟩, ⟨"B".data, 7, 0, 10, -5, 1, 1⟩]⟩],
   [], [], []⟩

/-- `twoClipTimeline` after applying `DeleteClip{A}` (ripple: B slides to
0), before the implicit consolidate. -/
def oneClipTimeline : Timeline :=
  ⟨settingsW, [⟨1, .Video, [⟨"B".data, 7, 0, 10, 0, 1, 1⟩]⟩], [], [], []⟩

/-- Overlay tracks stored out of id order: the track list is
`[1, 3, 2]`, all lanes empty. -/
def unorderedLanesTimeline : Timeline :=
  ⟨settingsW, [⟨1, .Video, []⟩, ⟨3, .Video, []⟩, ⟨2, .Video, []⟩], [], [], []⟩

/-- Tracks in ascending id order; lane 2 is occupied on `[0, 10)`. -/
def orderedLanesTimeline : Timeline :=
  ⟨settingsW,
   [⟨1, .Video, []⟩, ⟨2, .Video, [⟨"X".data, 7, 0, 10, 0, 1, 2⟩]⟩, ⟨3, .Video, []⟩],
   [], [], []⟩

/-- A Pending `BuildSegments` job row exactly as `create_job` writes it
(plain-string status and type). -/
def pendingBuildJob : JobRow :=
  ⟨1, "BuildSegments".data, "Pending".data, some ⟨some 1, none, some 1⟩,
   some "BuildSegments:1".data, true, 0⟩

/-- A freshly imported asset (no readiness stamps). -/
def assetOne : AssetRow := ⟨1, 1, 480000, false, false, false, false, false⟩

/-- An empty job store. -/
def emptyJobsState : JobsState := ⟨[], 1, 0⟩

/-! ## Theorems -/

/-- C3: the claim states that `parse_range` on `bytes=-N` over a non-empty
file of size F returns `Some((max(F-N,0), F-1))` with status 206, in
particular `(7, 9, 206)` for `bytes=-3` over 10 bytes and `(0, 1, 206)`
over 2 bytes.  The code instead also parses the text after the `-` as the
absolute end position (`end = N`), so `bytes=-3` over a 10-byte file
computes `start = 7, end = 3`, fails the `start > end` validation, returns
`None`, and the handler falls back to a full-body `200`; over a 2-byte
file it computes `start = 0, end = 3` and fails the `end >= size` check,
again yielding `200`. -/
theorem c3_suffix_range_broken :
    parse_range "bytes=-3".data 10 = none ∧
    rangeDecision "bytes=-3".data 10 = (0, 9, 200) ∧
    parse_range "bytes=-3".data 2 = none ∧
    rangeDecision "bytes=-3".data 2 = (0, 1, 200) := by
  refine ⟨by decide, by decide, by decide, by decide⟩

/-- C4: the claim states that `process_build_segments` is a no-op on an
asset whose `segments_built_at` stamp is already set.  The source has no
such check: re-running over a 10-second asset (480000 ticks) with the
stamp set and its 2 windows already inserted appends 2 more segment rows
(4 in total), changing the segment table. -/
theorem c4_rerun_duplicates_segments :
    (process_build_segments 1 1 480000 ⟨[], false⟩).segmentsBuiltAt = true ∧
    (process_build_segments 1 1 480000 ⟨[], false⟩).segments.length = 2 ∧
    (process_build_segments 1 1 480000
      (process_build_segments 1 1 480000 ⟨[], false⟩)).segments.length = 4 ∧
    (process_build_segments 1 1 480000
        (process_build_segments 1 1 480000 ⟨[], false⟩)).segments ≠
      (process_build_segments 1 1 480000 ⟨[], false⟩).segments := by
  refine ⟨by decide, by decide, by decide, by decide⟩

/-- C9: `determine_mode` evaluates its rules in the specified order and
returns the first that applies — it coincides with the spec-side
first-applicable-rule reading of §4.7, and in particular returns `Act`
exactly when none of the five rules fires. -/
theorem c9_determine_mode_first_applicable (user_intent : Str)
    (state : ProjectState) (is_destructive : Bool)
    (confirm_token : Option Str) :
    determine_mode user_intent state is_destructive confirm_token =
      firstApplicableMode (modeRules user_intent state is_destructive confirm_token) ∧
    (determine_mode user_intent state is_destructive confirm_token = .Act ↔
      ¬ (is_destructive = true ∧ confirm_token = none) ∧
      state.mediaAssetsCount ≠ 0 ∧
      state.segmentsCount ≠ 0 ∧
      state.jobsRunningCount = 0 ∧
      ¬ (state.embeddingCoverage < 4 / 5) ∧
      ¬ (ambiguousPhrases.any
          (fun p => strContains (strToLower user_intent) p) = true)) := by
  constructor
  · rfl
  · unfold determine_mode
    split_ifs with h1 h2 h3 h4 h5
    · simp only [Bool.and_eq_true, Option.isNone_iff_eq_none] at h1
      exact iff_of_false (by decide) (fun hr => hr.1 h1)
    · simp only [beq_iff_eq] at h2
      exact iff_of_false (by decide) (fun hr => hr.2.1 h2)
    · simp only [beq_iff_eq] at h3
      exact iff_of_false (by decide) (fun hr => hr.2.2.1 h3)
    · simp only [Bool.or_eq_true, decide_eq_true_eq] at h4
      refine iff_of_false (by decide) (fun hr => ?_)
      rcases h4 with h | h
      · have := hr.2.2.2.1; omega
      · exact hr.2.2.2.2.1 h
    · exact iff_of_false (by decide) (fun hr => hr.2.2.2.2.2 h5)
    · simp only [Bool.or_eq_true, decide_eq_true_eq, not_or] at h4
      refine iff_of_true rfl ⟨fun hc => ?_, ?_, ?_, ?_, ?_, ?_⟩
      · exact h1 (by simp [hc.1, hc.2])
      · intro hm; exact h2 (by simp [hm])
      · intro hs; exact h3 (by simp [hs])
      · omega
      · exact h4.2
      · exact h5

/-- C8: the claim states that a transcript-derived `summary_text` is the
first sentence truncated to 50 characters and hence never exceeds 50
characters.  The code appends an ellipsis after truncating: a transcript
whose first sentence is 60 characters long produces a 53-character
summary. -/
theorem c8_counterexample :
    ¬ ((summary_text (some (List.replicate 60 'a')) none).length ≤ 50) := by
  decide

/-- C8 (amended): `summary_text` is the first sentence of the transcript
when present — truncated to its first 50 characters with `"..."` appended
(53 characters total) when the sentence exceeds 50 characters — else the
joined scene tags when present and non-empty, else `"video segment"`; a
transcript-derived summary never exceeds 53 characters. -/
theorem c8_summary_text_amended (transcript : Option Str)
    (scene : Option SceneJson) :
    summary_text transcript scene = summarySpec transcript scene ∧
    ∀ t : Str, (summary_text (some t) scene).length ≤ 53 := by
  constructor
  · cases transcript with
    | some t =>
      simp only [summary_text, summarySpec]
      by_cases h : 50 < ((splitChar '.' t).headD t).length
      · rw [if_pos h, if_neg (by omega)]
      · rw [if_neg h, if_pos (by omega)]
    | none =>
      cases scene with
      | none => rfl
      | some s =>
        cases s with
        | malformed => rfl
        | parsed tags => cases tags <;> rfl
  · intro t
    simp only [summary_text]
    by_cases h : 50 < ((splitChar '.' t).headD t).length
    · rw [if_pos h]
      have hlen := List.length_take_le 50 ((splitChar '.' t).headD t)
      simp only [List.length_append, List.length_cons, List.length_nil]
      omega
    · rw [if_neg h]
      omega

/-! ### C1: the scheduler poll -/

/-- C1: the claim states that a scheduler poll returns a Pending job id
iff the type-specific prerequisites of §4.2 hold.  But `create_job` (and
`update_job_status`) store the status as the plain variant name
(`JobStatus::to_string`), while `get_ready_jobs` filters on
`serde_json::to_string(&JobStatus::Pending)`, which is the name wrapped in
quote characters.  No stored status ever matches, so over any job table
whose statuses were written by the job manager the poll returns the empty
list — in particular a Pending `BuildSegments` job (no prerequisites) is
never returned. -/
theorem c1_scheduler_poll_always_empty (jobs : List JobRow)
    (assets : List AssetRow) (h : ∀ j ∈ jobs, j.status ∈ plainStatusStrings) :
    get_ready_jobs jobs assets = .ok [] := by
  have hfilter :
      jobs.filter (fun j => j.status = jsonEncName JobStatusT.Pending.name) = [] := by
    rw [List.filter_eq_nil_iff]
    intro j hj
    have hmem := h j hj
    simp only [plainStatusStrings, List.mem_cons, List.not_mem_nil, or_false] at hmem
    rcases hmem with h1 | h1 | h1 | h1 | h1 <;> rw [h1] <;> decide
  unfold get_ready_jobs
  rw [hfilter]
  rfl

/-- C1 witness: a job table holding exactly one Pending `BuildSegments`
row as written by `create_job`, over a freshly imported asset. -/
theorem c1_witness :
    (∀ j ∈ [pendingBuildJob], j.status ∈ plainStatusStrings) ∧
    get_ready_jobs [pendingBuildJob] [assetOne] = .ok [] :=
  ⟨by decide, c1_scheduler_poll_always_empty [pendingBuildJob] [assetOne] (by decide)⟩

/-! ### C5: dedupe-key uniqueness of `create_job` -/

/-- The active jobs carrying a given dedupe key. -/
def activeWithKey (st : JobsState) (k : Str) : List JobRow :=
  st.jobs.filter (jobMatchesActiveKey k)

/-- Invariant (P3)/(I4): at most one active job per dedupe key. -/
def atMostOneActivePerKey (st : JobsState) : Prop :=
  ∀ k : Str, (activeWithKey st k).length ≤ 1

/-- C5: `create_job` with a supplied dedupe key returns the existing
active job's id without inserting when one exists, inserts exactly one
Pending active row otherwise, and preserves the at-most-one-active-job-
per-dedupe-key invariant (for calls with or without a key). -/
theorem c5_create_job_dedupe (st : JobsState) (jt : JobTypeT)
    (payload : Option Payload) (dedupe : Option Str)
    (hinv : atMostOneActivePerKey st) :
    (∀ k, dedupe = some k →
      (∀ j, st.jobs.find? (jobMatchesActiveKey k) = some j →
        create_job st jt payload dedupe = (j.id, st)) ∧
      (st.jobs.find? (jobMatchesActiveKey k) = none →
        (create_job st jt payload dedupe).2.jobs
          = st.jobs ++ [mkPendingRow st jt payload dedupe] ∧
        (mkPendingRow st jt payload dedupe).status = JobStatusT.Pending.name ∧
        (mkPendingRow st jt payload dedupe).isActive = true)) ∧
    atMostOneActivePerKey (create_job st jt payload dedupe).2 := by
  constructor
  · intro k hk
    subst hk
    constructor
    · intro j hj
      simp [create_job, hj]
    · intro hnone
      refine ⟨?_, rfl, rfl⟩
      simp [create_job, hnone]
  · cases dedupe with
    | none =>
      intro k
      have : (create_job st jt payload none).2.jobs
          = st.jobs ++ [mkPendingRow st jt payload none] := by
        simp [create_job]
      unfold activeWithKey
      rw [this, List.filter_append]
      have hrow : (mkPendingRow st jt payload none).dedupeKey = none := rfl
      have : [mkPendingRow st jt payload none].filter (jobMatchesActiveKey k) = [] := by
        simp [jobMatchesActiveKey, hrow]
      rw [this, List.append_nil]
      exact hinv k
    | some k0 =>
      cases hfind : st.jobs.find? (jobMatchesActiveKey k0) with
      | some j =>
        have : (create_job st jt payload (some k0)).2 = st := by
          simp [create_job, hfind]
        rw [this]
        exact hinv
      | none =>
        intro k
        have hjobs : (create_job st jt payload (some k0)).2.jobs
            = st.jobs ++ [mkPendingRow st jt payload (some k0)] := by
          simp [create_job, hfind]
        unfold activeWithKey
        rw [hjobs, List.filter_append, List.length_append]
        by_cases hk : k = k0
        · subst hk
          have hnil : st.jobs.filter (jobMatchesActiveKey k) = [] := by
            rw [List.filter_eq_nil_iff]
            intro j hj
            have := List.find?_eq_none.mp hfind j hj
            simpa using this
          rw [hnil]
          have : ([mkPendingRow st jt payload (some k)].filter
              (jobMatchesActiveKey k)).length ≤ 1 := by
            rw [List.filter_singleton]
            cases jobMatchesActiveKey k (mkPendingRow st jt payload (some k)) <;> simp
          simpa using this
        · have hmatch :
              jobMatchesActiveKey k (mkPendingRow st jt payload (some k0)) = false := by
            have hne : k0 ≠ k := Ne.symm hk
            simp [jobMatchesActiveKey, mkPendingRow, hne]
          have hrowne :
              [mkPendingRow st jt payload (some k0)].filter (jobMatchesActiveKey k) = [] := by
            rw [List.filter_singleton, hmatch]
            rfl
          rw [hrowne]
          simpa using hinv k

/-- C5 witness: starting from the empty store, one deduped create call
preserves the invariant. -/
theorem c5_witness :
    atMostOneActivePerKey emptyJobsState ∧
    atMostOneActivePerKey
      (create_job emptyJobsState .BuildSegments none (some "BuildSegments:1".data)).2 := by
  have hinv : atMostOneActivePerKey emptyJobsState := by
    intro k
    simp [activeWithKey, emptyJobsState]
  exact ⟨hinv,
    (c5_create_job_dedupe emptyJobsState .BuildSegments none
      (some "BuildSegments:1".data) hinv).2⟩

/-! ### C6: idempotence of `ensure_ready` -/

/-- An active job with the given dedupe key exists (the SQL existence
check of `ensure_ready` step 3). -/
def keyActive (st : JobsState) (k : Str) : Bool :=
  st.jobs.any (jobMatchesActiveKey k)

theorem create_job_jobs_append (st : JobsState) (jt : JobTypeT)
    (payload : Option Payload) (dedupe : Option Str) :
    ∃ l, (create_job st jt payload dedupe).2.jobs = st.jobs ++ l := by
  cases dedupe with
  | none => exact ⟨[mkPendingRow st jt payload none], by simp [create_job]⟩
  | some k =>
    cases hfind : st.jobs.find? (jobMatchesActiveKey k) with
    | some j => exact ⟨[], by simp [create_job, hfind]⟩
    | none =>
      exact ⟨[mkPendingRow st jt payload (some k)], by simp [create_job, hfind]⟩

theorem keyActive_append (jobs l : List JobRow) (nid : Int) (clk : Nat)
    (k : Str) (h : keyActive ⟨jobs, nid, clk⟩ k = true) :
    ∀ nid' clk', keyActive ⟨jobs ++ l, nid', clk'⟩ k = true := by
  intro nid' clk'
  unfold keyActive at h ⊢
  simp only [List.any_append, Bool.or_eq_true]
  exact Or.inl h

/-- Growing the job list by appends preserves key activity. -/
theorem keyActive_mono (st st' : JobsState) (k : Str)
    (hl : ∃ l, st'.jobs = st.jobs ++ l) (h : keyActive st k = true) :
    keyActive st' k = true := by
  obtain ⟨l, hl⟩ := hl
  unfold keyActive at h ⊢
  rw [hl]
  simp only [List.any_append, Bool.or_eq_true]
  exact Or.inl h

theorem ensureStep_jobs_append (pid aid : Int) (st : JobsState) (jt : JobTypeT) :
    ∃ l, (ensureStep pid aid st jt).1.jobs = st.jobs ++ l := by
  unfold ensureStep
  by_cases h : st.jobs.any (jobMatchesActiveKey (dedupeKeyFor jt aid)) = true
  · exact ⟨[], by rw [if_pos h]; exact (List.append_nil _).symm⟩
  · rw [if_neg h]
    exact create_job_jobs_append st jt _ _

theorem ensureSteps_jobs_append (pid aid : Int) (st : JobsState)
    (steps : List JobTypeT) :
    ∃ l, (ensureSteps pid aid st steps).1.jobs = st.jobs ++ l := by
  induction steps generalizing st with
  | nil => exact ⟨[], (List.append_nil _).symm⟩
  | cons jt rest ih =>
    obtain ⟨l1, h1⟩ := ensureStep_jobs_append pid aid st jt
    obtain ⟨l2, h2⟩ := ih (ensureStep pid aid st jt).1
    refine ⟨l1 ++ l2, ?_⟩
    simp only [ensureSteps]
    rw [h2, h1, List.append_assoc]

theorem ensureAsset_jobs_append (pid : Int) (target : AssetReadiness)
    (st : JobsState) (a : AssetState) :
    ∃ l, (ensureAsset pid target st a).1.jobs = st.jobs ++ l := by
  unfold ensureAsset
  by_cases h : a.readiness = target
  · exact ⟨[], by rw [if_pos h]; exact (List.append_nil _).symm⟩
  · rw [if_neg h]
    exact ensureSteps_jobs_append pid a.assetId st _

theorem ensure_ready_jobs_append (pid : Int) (target : AssetReadiness)
    (st : JobsState) (assets : List AssetState) :
    ∃ l, (ensure_ready pid target st assets).1.jobs = st.jobs ++ l := by
  induction assets generalizing st with
  | nil => exact ⟨[], (List.append_nil _).symm⟩
  | cons a rest ih =>
    obtain ⟨l1, h1⟩ := ensureAsset_jobs_append pid target st a
    obtain ⟨l2, h2⟩ := ih (ensureAsset pid target st a).1
    refine ⟨l1 ++ l2, ?_⟩
    simp only [ensure_ready]
    rw [h2, h1, List.append_assoc]

/-- After `ensureStep` runs for a step, an active job with that step's
dedupe key exists (it either already existed or was just inserted). -/
theorem ensureStep_establishes_key (pid aid : Int) (st : JobsState)
    (jt : JobTypeT) :
    keyActive (ensureStep pid aid st jt).1 (dedupeKeyFor jt aid) = true := by
  unfold ensureStep
  by_cases h : st.jobs.any (jobMatchesActiveKey (dedupeKeyFor jt aid)) = true
  · rw [if_pos h]
    exact h
  · rw [if_neg h]
    have hfind : st.jobs.find? (jobMatchesActiveKey (dedupeKeyFor jt aid)) = none := by
      rw [List.find?_eq_none]
      intro j hj
      intro hmatch
      exact h (List.any_eq_true.mpr ⟨j, hj, hmatch⟩)
    simp only [create_job, hfind]
    unfold keyActive
    simp [List.any_append, jobMatchesActiveKey, mkPendingRow]

theorem ensureSteps_establish_keys (pid aid : Int) (st : JobsState)
    (steps : List JobTypeT) :
    ∀ jt ∈ steps,
      keyActive (ensureSteps pid aid st steps).1 (dedupeKeyFor jt aid) = true := by
  induction steps generalizing st with
  | nil => intro jt h; cases h
  | cons jt0 rest ih =>
    intro jt hmem
    simp only [ensureSteps]
    rcases List.mem_cons.mp hmem with heq | htail
    · subst heq
      exact keyActive_mono _ _ _
        (ensureSteps_jobs_append pid aid (ensureStep pid aid st jt).1 rest)
        (ensureStep_establishes_key pid aid st jt)
    · exact ih (ensureStep pid aid st jt0).1 jt htail

theorem ensureAsset_establishes_keys (pid : Int) (target : AssetReadiness)
    (st : JobsState) (a : AssetState) (hne : a.readiness ≠ target) :
    ∀ jt ∈ compute_missing_steps a.readiness target,
      keyActive (ensureAsset pid target st a).1 (dedupeKeyFor jt a.assetId) = true := by
  intro jt hmem
  unfold ensureAsset
  rw [if_neg hne]
  exact ensureSteps_establish_keys pid a.assetId st _ jt hmem

/-- After a full `ensure_ready` pass, every missing step of every asset
that is not at the target has an active job with its dedupe key. -/
theorem ensure_ready_establishes_keys (pid : Int) (target : AssetReadiness)
    (st : JobsState) (assets : List AssetState) :
    ∀ a ∈ assets, a.readiness ≠ target →
      ∀ jt ∈ compute_missing_steps a.readiness target,
        keyActive (ensure_ready pid target st assets).1 (dedupeKeyFor jt a.assetId) = true := by
  induction assets generalizing st with
  | nil => intro a h; cases h
  | cons a0 rest ih =>
    intro a hmem hne jt hstep
    simp only [ensure_ready]
    rcases List.mem_cons.mp hmem with heq | htail
    · subst heq
      exact keyActive_mono _ _ _
        (ensure_ready_jobs_append pid target (ensureAsset pid target st a).1 rest)
        (ensureAsset_establishes_keys pid target st a hne jt hstep)
    · exact ih (ensureAsset pid target st a0).1 a htail hne jt hstep

/-- When every missing step's key is already active, `ensure_ready`
changes nothing and enqueues nothing. -/
theorem ensureSteps_noop (pid aid : Int) (st : JobsState) (steps : List JobTypeT)
    (h : ∀ jt ∈ steps, keyActive st (dedupeKeyFor jt aid) = true) :
    ensureSteps pid aid st steps = (st, []) := by
  induction steps with
  | nil => rfl
  | cons jt rest ih =>
    have hk := h jt (List.mem_cons_self jt rest)
    unfold keyActive at hk
    have hstep : ensureStep pid aid st jt = (st, none) := by
      simp only [ensureStep]
      rw [if_pos hk]
    simp only [ensureSteps, hstep]
    rw [ih (fun jt' hm => h jt' (List.mem_cons_of_mem jt hm))]
    rfl

theorem ensureAsset_noop (pid : Int) (target : AssetReadiness) (st : JobsState)
    (a : AssetState)
    (h : a.readiness ≠ target →
      ∀ jt ∈ compute_missing_steps a.readiness target,
        keyActive st (dedupeKeyFor jt a.assetId) = true) :
    ensureAsset pid target st a = (st, []) := by
  unfold ensureAsset
  by_cases hr : a.readiness = target
  · rw [if_pos hr]
  · rw [if_neg hr]
    exact ensureSteps_noop pid a.assetId st _ (h hr)

theorem ensure_ready_noop (pid : Int) (target : AssetReadiness) (st : JobsState)
    (assets : List AssetState)
    (h : ∀ a ∈ assets, a.readiness ≠ target →
      ∀ jt ∈ compute_missing_steps a.readiness target,
        keyActive st (dedupeKeyFor jt a.assetId) = true) :
    ensure_ready pid target st assets = (st, []) := by
  induction assets with
  | nil => rfl
  | cons a rest ih =>
    have ha : ensureAsset pid target st a = (st, []) :=
      ensureAsset_noop pid target st a (h a (List.mem_cons_self a rest))
    simp only [ensure_ready, ha]
    rw [ih (fun a' hm => h a' (List.mem_cons_of_mem a hm))]
    rfl

/-- C6: `ensure_ready` is idempotent across immediate repetition — with
no intervening change to assets or job states, the second call enqueues
no jobs (its `enqueued_jobs` list is empty), because every missing step's
dedupe key `{JobTypeName}:{asset_id}` already matches an active job
created (or found) by the first call. -/
theorem c6_ensure_ready_idempotent (st : JobsState) (assets : List AssetState)
    (pid : Int) (target : AssetReadiness) :
    (ensure_ready pid target (ensure_ready pid target st assets).1 assets).2 = [] := by
  have h := ensure_ready_noop pid target (ensure_ready pid target st assets).1 assets
    (ensure_ready_establishes_keys pid target st assets)
  rw [h]

/-! ### C7: overlay lane selection -/

/-- C7: the claim states `find_available_overlay_lane` returns the
smallest track id strictly greater than the base whose clips do not
overlap.  The source scans `self.tracks` in vector order, not in id
order: with the track list `[1, 3, 2]` (lanes 3 and 2 both empty), it
returns 3 although the free lane 2 has the smaller id. -/
theorem c7_counterexample :
    find_available_overlay_lane unorderedLanesTimeline 1 0 10 = 3 ∧
    (⟨2, .Video, []⟩ : Track) ∈ unorderedLanesTimeline.tracks ∧
    (2 : Int) > 1 ∧
    trackOverlaps ⟨2, .Video, []⟩ 0 10 = false ∧
    ¬ ((3 : Int) ≤ 2) := by
  refine ⟨by decide, by decide, by decide, by decide, by decide⟩

/-- For an id-sorted list, `find?` returns an element minimal among those
satisfying the predicate. -/
theorem find?_min_of_sorted (p : Track → Bool) (l : List Track)
    (hsort : l.Pairwise (fun a b => a.id < b.id)) (x : Track)
    (hx : l.find? p = some x) :
    ∀ y ∈ l, p y = true → x.id ≤ y.id := by
  induction l with
  | nil => cases hx
  | cons tr rest ih =>
    intro y hy hpy
    rcases List.pairwise_cons.mp hsort with ⟨hhead, htail⟩
    by_cases hp : p tr = true
    · rw [List.find?_cons_of_pos _ hp] at hx
      cases hx
      rcases List.mem_cons.mp hy with rfl | hmem
      · exact le_refl _
      · exact le_of_lt (hhead y hmem)
    · rw [List.find?_cons_of_neg _ (by simpa using hp)] at hx
      rcases List.mem_cons.mp hy with rfl | hmem
      · exact absurd hpy hp
      · exact ih htail hx y hmem hpy

theorem foldl_max_init_le (l : List Int) (a : Int) : a ≤ l.foldl max a := by
  induction l generalizing a with
  | nil => exact le_refl a
  | cons x xs ih => exact le_trans (le_max_left a x) (ih (max a x))

theorem foldl_max_mem_le (l : List Int) (a : Int) :
    ∀ x ∈ l, x ≤ l.foldl max a := by
  induction l generalizing a with
  | nil => intro x hx; cases hx
  | cons y ys ih =>
    intro x hx
    rcases List.mem_cons.mp hx with rfl | hmem
    · exact le_trans (le_max_right a x) (foldl_max_init_le ys (max a x))
    · exact ih (max a y) x hmem

/-- C7 (amended): on a timeline whose tracks are listed in strictly
ascending id order, `find_available_overlay_lane` returns the smallest
track id above the base whose clips have no overlap (in the source's
sense `pos < clip_end ∧ pos + dur > clip_start`); when every track above
the base overlaps (or none exists) it returns one more than the largest
track id above the base (the base itself when none exist), an id larger
than every existing track id.  On an arbitrary timeline the scan follows
track-list order, not id order. -/
theorem c7_find_lane_amended (t : Timeline) (base pos dur : Int)
    (hsort : t.tracks.Pairwise (fun a b => a.id < b.id)) :
    (∃ tr ∈ t.tracks,
       tr.id = find_available_overlay_lane t base pos dur ∧
       tr.id > base ∧ trackOverlaps tr pos dur = false ∧
       (∀ tr' ∈ t.tracks, tr'.id > base → trackOverlaps tr' pos dur = false →
         tr.id ≤ tr'.id)) ∨
    ((∀ tr ∈ t.tracks, tr.id > base → trackOverlaps tr pos dur = true) ∧
     (∀ tr ∈ t.tracks, tr.id < find_available_overlay_lane t base pos dur) ∧
     find_available_overlay_lane t base pos dur > base) := by
  unfold find_available_overlay_lane
  have hsortf : (t.tracks.filter (fun tr => tr.id > base)).Pairwise
      (fun a b => a.id < b.id) := hsort.filter _
  cases hfind : (t.tracks.filter (fun tr => tr.id > base)).find?
      (fun tr => ! trackOverlaps tr pos dur) with
  | some tr =>
    left
    have hmemf := List.mem_of_find?_eq_some hfind
    have hpred := List.find?_some hfind
    simp only [Bool.not_eq_true'] at hpred
    have hmem : tr ∈ t.tracks := (List.mem_filter.mp hmemf).1
    have hgt : tr.id > base := by
      have := (List.mem_filter.mp hmemf).2
      simpa using this
    refine ⟨tr, hmem, rfl, hgt, hpred, ?_⟩
    intro tr' hmem' hgt' hov'
    have hmemf' : tr' ∈ t.tracks.filter (fun tr => tr.id > base) :=
      List.mem_filter.mpr ⟨hmem', by simpa using hgt'⟩
    exact find?_min_of_sorted _ _ hsortf tr hfind tr' hmemf'
      (by simp [hov'])
  | none =>
    right
    have hall := List.find?_eq_none.mp hfind
    refine ⟨?_, ?_, ?_⟩
    · intro tr hmem hgt
      have hmemf : tr ∈ t.tracks.filter (fun tr => tr.id > base) :=
        List.mem_filter.mpr ⟨hmem, by simpa using hgt⟩
      have := hall tr hmemf
      simpa using this
    · intro tr hmem
      dsimp only
      by_cases hgt : tr.id > base
      · have hmemf : tr ∈ t.tracks.filter (fun tr => tr.id > base) :=
          List.mem_filter.mpr ⟨hmem, by simpa using hgt⟩
        have hid : tr.id ∈ (t.tracks.filter (fun tr => tr.id > base)).map Track.id :=
          List.mem_map.mpr ⟨tr, hmemf, rfl⟩
        have := foldl_max_mem_le _ base tr.id hid
        omega
      · have hb := foldl_max_init_le
          ((t.tracks.filter (fun tr => tr.id > base)).map Track.id) base
        omega
    · dsimp only
      have hb := foldl_max_init_le
        ((t.tracks.filter (fun tr => tr.id > base)).map Track.id) base
      omega

/-- C7 witness: tracks `[1, 2, 3]` in ascending order with lane 2
occupied on `[0, 10)`: the minimality characterization holds, and the
selected lane is 3. -/
theorem c7_witness :
    orderedLanesTimeline.tracks.Pairwise (fun a b => a.id < b.id) ∧
    ((∃ tr ∈ orderedLanesTimeline.tracks,
       tr.id = find_available_overlay_lane orderedLanesTimeline 1 0 480000 ∧
       tr.id > 1 ∧ trackOverlaps tr 0 480000 = false ∧
       (∀ tr' ∈ orderedLanesTimeline.tracks, tr'.id > 1 →
         trackOverlaps tr' 0 480000 = false → tr.id ≤ tr'.id)) ∨
    ((∀ tr ∈ orderedLanesTimeline.tracks, tr.id > 1 →
        trackOverlaps tr 0 480000 = true) ∧
     (∀ tr ∈ orderedLanesTimeline.tracks,
        tr.id < find_available_overlay_lane orderedLanesTimeline 1 0 480000) ∧
     find_available_overlay_lane orderedLanesTimeline 1 0 480000 > 1)) :=
  ⟨by decide, c7_find_lane_amended orderedLanesTimeline 1 0 480000 (by decide)⟩

/-! ### C10: error atomicity of `apply_operation` -/

/-- A successful `removeCollapse` leaves a track with the reported id in
the resulting track list (the track the clip was removed from). -/
theorem removeCollapse_track_mem (clipId : Str) (tracks : List Track)
    (c : ClipInstance) (tid : Int) (tracks' : List Track)
    (h : removeCollapse clipId tracks = some (c, tid, tracks')) :
    ∃ tr ∈ tracks', tr.id = tid := by
  induction tracks generalizing tracks' with
  | nil => cases h
  | cons tr rest ih =>
    simp only [removeCollapse] at h
    cases hex : extractClip clipId tr.clips with
    | some p =>
      rw [hex] at h
      obtain ⟨c0, cl⟩ := p
      simp only [Option.some.injEq, Prod.mk.injEq] at h
      obtain ⟨-, htid, htr⟩ := h
      subst htr
      exact ⟨_, List.mem_cons_self _ _, htid⟩
    | none =>
      rw [hex] at h
      rcases Option.map_eq_some'.mp h with ⟨p, hp, hmk⟩
      obtain ⟨c0, tid0, ts0⟩ := p
      simp only [Prod.mk.injEq] at hmk
      obtain ⟨hc, htid, htr⟩ := hmk
      rw [hc, htid] at hp
      obtain ⟨tr0, hmem0, hid0⟩ := ih ts0 hp
      subst htr
      exact ⟨tr0, List.mem_cons_of_mem tr hmem0, hid0⟩

/-- C10: `apply_operation` is atomic on error — whenever it returns
`Err` (a clip-targeting operation whose clip id does not identify a clip
in the required location, including a `SplitClip` whose position does not
lie strictly inside the named clip), the timeline it leaves behind is
exactly the input timeline (all tracks, clips, captions, music,
markers). -/
theorem c10_apply_operation_error_atomic (t : Timeline)
    (op : TimelineOperation) (n : Nat) (e : Str)
    (h : (apply_operation t op n).res = .error e) :
    (apply_operation t op n).timeline = t := by
  cases op with
  | SplitClip cid pos =>
    simp only [apply_operation] at h ⊢
    cases hs : scanTracks (fun tr =>
        (splitClips cid pos n tr.clips).map
          (fun cl => { tr with clips := cl })) t.tracks with
    | some tracks' => rw [hs] at h; exact absurd h (by simp)
    | none => rfl
  | TrimClip cid ni no =>
    simp only [apply_operation] at h ⊢
    cases hs : scanTracks (fun tr =>
        (trimClips cid ni no tr.clips).map
          (fun cl => { tr with clips := cl })) t.tracks with
    | some tracks' => rw [hs] at h; exact absurd h (by simp)
    | none => rfl
  | DeleteClip cid =>
    simp only [apply_operation] at h ⊢
    cases hs : removeFromTracks cid t.tracks with
    | none => rfl
    | some p =>
      obtain ⟨c, tid, tracks'⟩ := p
      rw [hs] at h
      dsimp only at h
      by_cases htid : tid = 1
      · rw [if_pos htid] at h; exact absurd h (by simp)
      · rw [if_neg htid] at h; exact absurd h (by simp)
  | InsertClip a p tr d =>
    simp only [apply_operation] at h
    exact absurd h (by simp)
  | MoveClip cid npos =>
    simp only [apply_operation] at h ⊢
    cases hs : removeCollapse cid t.tracks with
    | none => rfl
    | some p =>
      obtain ⟨c, origId, tracks'⟩ := p
      rw [hs] at h
      dsimp only at h
      by_cases horig : origId = 1
      · rw [if_pos horig] at h
        cases hf : tracks'.find? (fun tr => tr.id = 1) with
        | some primary => rw [hf] at h; exact absurd h (by simp)
        | none =>
          obtain ⟨tr0, hmem0, hid0⟩ :=
            removeCollapse_track_mem cid t.tracks c origId tracks' hs
          have hne := List.find?_eq_none.mp hf tr0 hmem0
          rw [hid0, horig] at hne
          simp at hne
      · rw [if_neg horig] at h; exact absurd h (by simp)
  | ReorderClip cid npos =>
    simp only [apply_operation] at h ⊢
    cases hf : t.tracks.find? (fun tr => tr.id = 1) with
    | none => rfl
    | some prim =>
      rw [hf] at h
      dsimp only at h
      dsimp only
      cases hex : extractClip cid prim.clips with
      | none => rfl
      | some p =>
        obtain ⟨c, cl⟩ := p
        rw [hex] at h
        dsimp only at h
        cases hf2 : (modifyFirstTrack (fun tr => tr.id = 1)
            (fun tr => { tr with clips := collapseGap c.timelineStartTicks (clipDur c) cl })
            t.tracks).find? (fun tr => tr.id = 1) with
        | none => rw [hf2] at h; exact absurd h (by simp)
        | some primary => rw [hf2] at h; exact absurd h (by simp)
  | MoveClipToTrack cid ntid =>
    simp only [apply_operation] at h ⊢
    cases hs : removeFromTracks cid t.tracks with
    | none => rfl
    | some p =>
      obtain ⟨c, tid, tracks'⟩ := p
      rw [hs] at h
      exact absurd h (by simp)
  | RippleInsertClip a p d =>
    simp only [apply_operation] at h
    exact absurd h (by simp)
  | OverwriteClip a p d =>
    simp only [apply_operation] at h
    exact absurd h (by simp)
  | InsertLayeredClip a p d b =>
    simp only [apply_operation] at h
    exact absurd h (by simp)
  | ConvertPrimaryToOverlay cid pos =>
    simp only [apply_operation] at h ⊢
    cases hf : t.tracks.find? (fun tr => tr.id = 1) with
    | none => rfl
    | some prim =>
      rw [hf] at h
      dsimp only at h
      dsimp only
      cases hex : extractClip cid prim.clips with
      | none => rfl
      | some p =>
        obtain ⟨c, cl⟩ := p
        rw [hex] at h
        exact absurd h (by simp)
  | ConvertOverlayToPrimary cid pos =>
    simp only [apply_operation] at h ⊢
    cases hs : removeFromOverlay cid t.tracks with
    | none => rfl
    | some p =>
      obtain ⟨c, srcId, tracks'⟩ := p
      rw [hs] at h
      exact absurd h (by simp)
  | ConsolidateTimeline =>
    simp only [apply_operation] at h
    exact absurd h (by simp)
  | ClearTimeline =>
    simp only [apply_operation] at h
    exact absurd h (by simp)

/-- C10 witness: deleting a clip id that is nowhere on the timeline
errors and leaves the timeline untouched. -/
theorem c10_witness :
    (apply_operation twoClipTimeline (.DeleteClip "Z".data) 0).res
      = .error "Clip not found".data ∧
    (apply_operation twoClipTimeline (.DeleteClip "Z".data) 0).timeline
      = twoClipTimeline :=
  ⟨rfl,
   c10_apply_operation_error_atomic twoClipTimeline (.DeleteClip "Z".data) 0
     "Clip not found".data rfl⟩

/-! ### C2: magnetic-primary invariants after the public apply -/

theorem assignStarts_head (cur : Int) (l : List ClipInstance) :
    ∀ c ∈ (assignStarts cur l).head?, c.timelineStartTicks = cur := by
  cases l with
  | nil => intro c hc; cases hc
  | cons x xs =>
    intro c hc
    simp only [assignStarts, List.head?_cons, Option.mem_def, Option.some.injEq] at hc
    rw [← hc]

theorem assignStarts_gapless (cur : Int) (l : List ClipInstance) :
    gapless (assignStarts cur l) := by
  induction l generalizing cur with
  | nil => exact List.chain'_nil
  | cons c cs ih =>
    rw [assignStarts, gapless, List.chain'_cons']
    refine ⟨?_, ih (cur + clipDur c)⟩
    intro b hb
    have := assignStarts_head (cur + clipDur c) cs b hb
    simp only [clipEnd, clipDur] at this ⊢
    omega

theorem gapless_sorted (l : List ClipInstance) (hg : gapless l)
    (hd : ∀ c ∈ l, 0 ≤ clipDur c) : sortedByStartProp l := by
  induction l with
  | nil => exact List.chain'_nil
  | cons a rest ih =>
    cases rest with
    | nil => exact List.chain'_singleton a
    | cons b rest' =>
      rw [gapless, List.chain'_cons] at hg
      rw [sortedByStartProp, List.chain'_cons]
      refine ⟨?_, ih hg.2 (fun c hc => hd c (List.mem_cons_of_mem a hc))⟩
      have hda := hd a (List.mem_cons_self a _)
      rw [hg.1]
      simp only [clipEnd]
      omega

theorem find?_modifyFirstTrack (p : Track → Bool) (f : Track → Track)
    (l : List Track) (hp : ∀ tr, p tr = true → p (f tr) = true) :
    (modifyFirstTrack p f l).find? p = (l.find? p).map f := by
  induction l with
  | nil => rfl
  | cons tr rest ih =>
    by_cases h : p tr = true
    · rw [modifyFirstTrack, if_pos h, List.find?_cons_of_pos _ (hp tr h),
        List.find?_cons_of_pos _ h, Option.map_some']
    · rw [modifyFirstTrack, if_neg h, List.find?_cons_of_neg _ (by simpa using h),
        List.find?_cons_of_neg _ (by simpa using h), ih]

theorem modifyFirstTrack_mem (p : Track → Bool) (f : Track → Track)
    (l : List Track) (tr : Track) (h : tr ∈ modifyFirstTrack p f l) :
    tr ∈ l ∨ ∃ tr0 ∈ l, p tr0 = true ∧ tr = f tr0 := by
  induction l with
  | nil => cases h
  | cons tr1 rest ih =>
    rw [modifyFirstTrack] at h
    by_cases h1 : p tr1 = true
    · rw [if_pos h1] at h
      rcases List.mem_cons.mp h with rfl | hmem
      · exact Or.inr ⟨tr1, List.mem_cons_self _ _, h1, rfl⟩
      · exact Or.inl (List.mem_cons_of_mem _ hmem)
    · rw [if_neg h1] at h
      rcases List.mem_cons.mp h with rfl | hmem
      · exact Or.inl (List.mem_cons_self _ _)
      · rcases ih hmem with hl | ⟨tr0, hm0, hp0, heq⟩
        · exact Or.inl (List.mem_cons_of_mem _ hl)
        · exact Or.inr ⟨tr0, List.mem_cons_of_mem _ hm0, hp0, heq⟩

/-- When the timeline has a primary track, `repack_primary_timeline`
leaves the primary clip list in the `assignStarts 0` image. -/
theorem repackPrimary_primaryClips (t : Timeline)
    (hex : ∃ tr ∈ t.tracks, tr.id = 1) :
    ∃ cl0, primaryClips (repackPrimary t) = assignStarts 0 cl0 := by
  obtain ⟨tr1, hm1, hid1⟩ := hex
  have hfind : ∃ tr2, t.tracks.find? (fun tr => decide (tr.id = 1)) = some tr2 := by
    have : (t.tracks.find? (fun tr => decide (tr.id = 1))).isSome := by
      rw [List.find?_isSome]
      exact ⟨tr1, hm1, by simpa using hid1⟩
    exact Option.isSome_iff_exists.mp this
  obtain ⟨tr2, hfind2⟩ := hfind
  refine ⟨sortByStart tr2.clips, ?_⟩
  unfold primaryClips primaryTrack? repackPrimary
  dsimp only
  rw [find?_modifyFirstTrack (fun tr => decide (tr.id = 1))
    (fun tr => { tr with clips := assignStarts 0 (sortByStart tr.clips) })
    t.tracks (fun tr h => h), hfind2]
  rfl

/-- The repack inside `consolidate_timeline` leaves the primary clip list
in the `assignStarts 0` image. -/
theorem consolidate_primary_clips (u : Timeline) :
    ∃ cl0, primaryClips (consolidate_timeline u) = assignStarts 0 cl0 := by
  unfold consolidate_timeline
  apply repackPrimary_primaryClips
  dsimp only
  have hex1 : ∃ tr, tr ∈ (if u.tracks.any (fun tr => tr.id = 1) then u.tracks
      else u.tracks ++ [⟨1, .Video, []⟩]) ∧ tr.id = 1 := by
    by_cases h : u.tracks.any (fun tr => tr.id = 1) = true
    · rw [if_pos h]
      rcases List.any_eq_true.mp h with ⟨tr, hm, hp⟩
      exact ⟨tr, hm, by simpa using hp⟩
    · rw [if_neg h]
      exact ⟨⟨1, .Video, []⟩, List.mem_append_right _ (List.mem_singleton_self _), rfl⟩
  obtain ⟨tr1, hm1, hid1⟩ := hex1
  refine ⟨tr1, ?_, hid1⟩
  refine List.mem_filter.mpr ⟨hm1, ?_⟩
  simp [hid1]

/-- Tracks other than the primary survive `consolidate_timeline`
untouched (they are only possibly dropped when empty, never modified). -/
theorem consolidate_overlay_mem (u : Timeline) (tr : Track)
    (hmem : tr ∈ (consolidate_timeline u).tracks) (hne : tr.id ≠ 1) :
    tr ∈ u.tracks := by
  unfold consolidate_timeline repackPrimary at hmem
  rcases modifyFirstTrack_mem _ _ _ tr hmem with hl | ⟨tr0, hm0, hp0, heq⟩
  · have hm1 := (List.mem_filter.mp hl).1
    by_cases h : u.tracks.any (fun tr => tr.id = 1) = true
    · rw [if_pos h] at hm1
      exact hm1
    · rw [if_neg h] at hm1
      rcases List.mem_append.mp hm1 with hm | hm
      · exact hm
      · rcases List.mem_singleton.mp hm with rfl
        exact absurd rfl hne
  · exfalso
    apply hne
    rw [heq]
    simpa using hp0

/-- C2 (amended): after any operation batch that the public apply entry
point accepts, the implicit `consolidate_timeline` leaves the primary
storyline (the track with id 1) gapless (M3) and starting at 0 (M2), and
— provided every primary clip has `in_ticks ≤ out_ticks`, which `TrimClip`
can violate — sorted by `timeline_start_ticks` (M1); overlay tracks
(id ≠ 1) are passed through from the pre-consolidate state unmodified. -/
theorem c2_apply_invariants_amended (t : Timeline)
    (ops : List TimelineOperation) (n : Nat) (u : Timeline) (m : Nat)
    (h : applyOps t ops n = .ok (u, m)) :
    apply_operations t ops n = .ok (consolidate_timeline u) ∧
    startsAtZero (primaryClips (consolidate_timeline u)) ∧
    gapless (primaryClips (consolidate_timeline u)) ∧
    ((∀ c ∈ primaryClips (consolidate_timeline u), c.inTicks ≤ c.outTicks) →
      sortedByStartProp (primaryClips (consolidate_timeline u))) ∧
    (∀ tr ∈ (consolidate_timeline u).tracks, tr.id ≠ 1 → tr ∈ u.tracks) := by
  obtain ⟨cl0, hcl0⟩ := consolidate_primary_clips u
  refine ⟨?_, ?_, ?_, ?_, ?_⟩
  · unfold apply_operations
    rw [h]
    rfl
  · intro c hc
    rw [hcl0] at hc
    exact assignStarts_head 0 cl0 c hc
  · rw [hcl0]
    exact assignStarts_gapless 0 cl0
  · intro hd
    rw [hcl0] at hd ⊢
    refine gapless_sorted _ (assignStarts_gapless 0 cl0) ?_
    intro c hc
    have := hd c hc
    simp only [clipDur]
    omega
  · intro tr hmem hne
    exact consolidate_overlay_mem u tr hmem hne

/-- C2 counterexample: the claim as stated (M1 holds for every accepted
operation batch) fails — `TrimClip{A, new_in=0, new_out=-5}` over a
two-clip primary track is accepted, and after the implicit consolidate
the primary clips start at `[0, -5]`, not sorted by
`timeline_start_ticks`. -/
theorem c2_counterexample :
    apply_operations twoClipTimeline [.TrimClip "A".data 0 (-5)] 0
      = .ok twoClipTrimmed ∧
    ¬ sortedByStartProp (primaryClips twoClipTrimmed) :=
  ⟨rfl, fun hs => absurd (List.chain'_cons.mp hs).1 (by decide)⟩

/-- C2 witness: deleting clip A from the two-clip timeline is accepted;
the invariants hold of the consolidated result. -/
theorem c2_witness :
    apply_operations twoClipTimeline [.DeleteClip "A".data] 0
      = .ok (consolidate_timeline oneClipTimeline) ∧
    startsAtZero (primaryClips (consolidate_timeline oneClipTimeline)) ∧
    gapless (primaryClips (consolidate_timeline oneClipTimeline)) ∧
    ((∀ c ∈ primaryClips (consolidate_timeline oneClipTimeline),
        c.inTicks ≤ c.outTicks) →
      sortedByStartProp (primaryClips (consolidate_timeline oneClipTimeline))) ∧
    (∀ tr ∈ (consolidate_timeline oneClipTimeline).tracks, tr.id ≠ 1 →
      tr ∈ oneClipTimeline.tracks) :=
  c2_apply_invariants_amended twoClipTimeline [.DeleteClip "A".data] 0
    oneClipTimeline 0 rfl

end Vibecut
